import Mathlib

/-!
# errorsmith — verification of the rewriting engine

Shallow embedding of `src/main.go` (the `errorsmith` fault injector) and
proofs about it.  Source bytes are modelled as `List Char`, byte offsets as
`Nat`, Go `int` results that can be negative as `Int`, and the fatal
`panic`/`log.Fatalf` paths as `Except String`.
-/

namespace Errorsmith

/-! ## Text locator: model of `File.findText` (src/main.go:208-238)

The Go code is a single cursor loop over the original bytes.  Each loop that
advances the cursor is written below with an explicit iteration bound
(`fuel`); every iteration advances the cursor by at least one byte, so a
bound of `s.length + 1` is never reached from a live state, and all callers
pass exactly that.  This keeps every definition structurally recursive and
hence evaluable by `decide`/`rfl`. -/

/-- Line-comment skip inside `findText` (src/main.go:218-220):
`for i < len(s) && s[i] != '\n' { i++ }`.  Returns the cursor at the first
newline at or after `i`, or at `s.length`.  (`getD`'s default is never read:
the index is guarded by `i < s.length`.) -/
def skipLineAux (s : List Char) : Nat → Nat → Nat
  | 0, i => i
  | fuel + 1, i =>
    if i < s.length then
      if s.getD i ' ' = '\n' then i else skipLineAux s fuel (i + 1)
    else i

/-- Entry point for the line-comment skip, with adequate fuel. -/
def skipLine (s : List Char) (i : Nat) : Nat :=
  skipLineAux s (s.length + 1) i

/-- Block-comment skip inside `findText` (src/main.go:223-233):
`for i += 2; ; i++ { if i+2 > len(s) { return 0 }; if s[i] == '*' && s[i+1] == '/' { i += 2; break } }`.
`none` models the `return 0` taken when fewer than two bytes remain (an
unterminated block comment); `some j` is the cursor just past the closing
delimiter. -/
def skipBlockAux (s : List Char) : Nat → Nat → Option Nat
  | 0, _ => none
  | fuel + 1, i =>
    if i + 2 > s.length then none
    else if s.getD i ' ' = '*' ∧ s.getD (i + 1) ' ' = '/' then some (i + 2)
    else skipBlockAux s fuel (i + 1)

/-- Entry point for the block-comment skip, with adequate fuel. -/
def skipBlock (s : List Char) (i : Nat) : Option Nat :=
  skipBlockAux s (s.length + 1) i

/-- Main loop of `File.findText` (src/main.go:213-237).  At each visited
cursor position it first checks for a literal match of `text`
(`bytes.HasPrefix(s[i:], b)`), then for a `//` or `/*` comment opener, and
otherwise advances one byte.  `-1` is the not-found sentinel
(src/main.go:237); `0` is the early return taken from inside an unterminated
block comment (src/main.go:226). -/
def findTextLoopAux (s text : List Char) : Nat → Nat → Int
  | 0, _ => -1
  | fuel + 1, i =>
    if i < s.length then
      if text.isPrefixOf (s.drop i) then (i : Int)
      else if i + 2 ≤ s.length ∧ s.getD i ' ' = '/' ∧ s.getD (i + 1) ' ' = '/' then
        findTextLoopAux s text fuel (skipLine s i)
      else if i + 2 ≤ s.length ∧ s.getD i ' ' = '/' ∧ s.getD (i + 1) ' ' = '*' then
        match skipBlock s (i + 2) with
        | none => 0
        | some j => findTextLoopAux s text fuel j
      else findTextLoopAux s text fuel (i + 1)
    else -1

/-- Model of `File.findText` (src/main.go:208-238): scan the original bytes
`s` from offset `start` for the literal byte sequence `text`, skipping line
and block comments. -/
def findText (s : List Char) (start : Nat) (text : List Char) : Int :=
  findTextLoopAux s text (s.length + 1) start

/-! ### The comment-skipping scan, separated from the keyword match

`stops` runs the same cursor movement as `findText` but ignores the keyword:
it returns the list of cursor positions the scan visits (exactly the
positions that are not inside a line or block comment, in increasing order)
together with a flag that is `true` when the scan reached the end of the
buffer and `false` when it ended inside an unterminated block comment. -/

/-- Cursor positions visited by the comment-skipping scan, and whether the
scan terminated at the end of the buffer (`true`) or inside an unterminated
block comment (`false`). -/
def stopsAux (s : List Char) : Nat → Nat → List Nat × Bool
  | 0, _ => ([], true)
  | fuel + 1, i =>
    if i < s.length then
      if i + 2 ≤ s.length ∧ s.getD i ' ' = '/' ∧ s.getD (i + 1) ' ' = '/' then
        let r := stopsAux s fuel (skipLine s i)
        (i :: r.1, r.2)
      else if i + 2 ≤ s.length ∧ s.getD i ' ' = '/' ∧ s.getD (i + 1) ' ' = '*' then
        match skipBlock s (i + 2) with
        | none => ([i], false)
        | some j =>
          let r := stopsAux s fuel j
          (i :: r.1, r.2)
      else
        let r := stopsAux s fuel (i + 1)
        (i :: r.1, r.2)
    else ([], true)

/-- Positions outside comments reachable from `start`, with the
normal-termination flag. -/
def stops (s : List Char) (start : Nat) : List Nat × Bool :=
  stopsAux s (s.length + 1) start

/-- The line-comment skip never moves the cursor backwards. -/
theorem skipLineAux_ge (s : List Char) : ∀ fuel i, i ≤ skipLineAux s fuel i := by
  intro fuel
  induction fuel with
  | zero => intro i; simp [skipLineAux]
  | succ n ih =>
    intro i
    simp only [skipLineAux]
    split
    · split
      · exact le_refl i
      · exact le_trans (Nat.le_succ i) (ih (i + 1))
    · exact le_refl i

/-- When the cursor sits on a byte that is not a newline (in particular the
`'/'` that opened the comment), the line-comment skip strictly advances. -/
theorem skipLine_gt (s : List Char) (i : Nat) (hi : i < s.length)
    (hc : s.getD i ' ' ≠ '\n') : i < skipLine s i := by
  unfold skipLine
  show i < skipLineAux s (s.length + 1) i
  rw [skipLineAux, if_pos hi, if_neg hc]
  calc i < i + 1 := Nat.lt_succ_self i
    _ ≤ skipLineAux s s.length (i + 1) := skipLineAux_ge s s.length (i + 1)

/-- A successful block-comment skip lands at least two bytes further on. -/
theorem skipBlockAux_some_ge (s : List Char) :
    ∀ fuel i j, skipBlockAux s fuel i = some j → i + 2 ≤ j := by
  intro fuel
  induction fuel with
  | zero => intro i j h; simp [skipBlockAux] at h
  | succ n ih =>
    intro i j h
    simp only [skipBlockAux] at h
    split at h
    · exact absurd h (by simp)
    · split at h
      · cases h; omega
      · have := ih (i + 1) j h
        omega

/-- A successful block-comment skip lands at least two bytes further on. -/
theorem skipBlock_some_ge (s : List Char) (i j : Nat) (h : skipBlock s i = some j) :
    i + 2 ≤ j :=
  skipBlockAux_some_ge s (s.length + 1) i j h

/-- Every position visited by the comment-skipping scan is at or after the
start position. -/
theorem stopsAux_ge (s : List Char) :
    ∀ fuel i j, j ∈ (stopsAux s fuel i).1 → i ≤ j := by
  intro fuel
  induction fuel with
  | zero => intro i j h; simp [stopsAux] at h
  | succ n ih =>
    intro i j h
    simp only [stopsAux] at h
    split at h
    case isTrue hi =>
      split at h
      case isTrue hline =>
        rcases List.mem_cons.mp h with rfl | hm
        · exact le_refl j
        · have h1 := ih (skipLine s i) j hm
          have h2 : i < skipLine s i := by
            refine skipLine_gt s i hi ?_
            rw [hline.2.1]; decide
          omega
      case isFalse hline =>
        split at h
        case isTrue hblk =>
          rcases hsb : skipBlock s (i + 2) with _ | j'
          · rw [hsb] at h
            simp at h
            omega
          · rw [hsb] at h
            simp only [List.mem_cons] at h
            rcases h with rfl | hm
            · exact le_refl j
            · have h1 := ih j' j hm
              have h2 := skipBlock_some_ge s (i + 2) j' hsb
              omega
        case isFalse hblk =>
          rcases List.mem_cons.mp h with rfl | hm
          · exact le_refl j
          · have := ih (i + 1) j hm
            omega
    case isFalse => simp at h

/-- Helper with the predicate explicit: `find?` on a cons whose head matches. -/
theorem find?_cons_pos {α : Type} (p : α → Bool) (a : α) (l : List α)
    (h : p a = true) : List.find? p (a :: l) = some a := by
  simp [List.find?, h]

/-- Helper with the predicate explicit: `find?` on a cons whose head does not
match. -/
theorem find?_cons_neg {α : Type} (p : α → Bool) (a : α) (l : List α)
    (h : ¬p a = true) : List.find? p (a :: l) = List.find? p l := by
  have hf : p a = false := by revert h; cases p a <;> simp
  simp [List.find?, hf]

/-- The scan loop of `findText` returns exactly the first keyword match over
the positions the comment-skipping scan visits; when no visited position
matches, it returns `-1` on normal termination and `0` when the scan ended
inside an unterminated block comment. -/
theorem findTextLoopAux_eq_stops (s text : List Char) :
    ∀ fuel i, s.length ≤ fuel + i →
      findTextLoopAux s text fuel i =
        match (stopsAux s fuel i).1.find? (fun j => text.isPrefixOf (s.drop j)) with
        | some j => (j : Int)
        | none => if (stopsAux s fuel i).2 then -1 else 0 := by
  intro fuel
  induction fuel with
  | zero =>
    intro i hlen
    simp [findTextLoopAux, stopsAux]
  | succ n ih =>
    intro i hlen
    by_cases hi : i < s.length
    · rw [findTextLoopAux, stopsAux]
      simp only [if_pos hi]
      by_cases hline : i + 2 ≤ s.length ∧ s.getD i ' ' = '/' ∧ s.getD (i + 1) ' ' = '/'
      · -- line comment branch: jump to the newline
        simp only [if_pos hline]
        have hadv : i < skipLine s i := by
          refine skipLine_gt s i hi ?_
          rw [hline.2.1]; decide
        by_cases hpre : text.isPrefixOf (s.drop i)
        · rw [if_pos hpre, find?_cons_pos (fun j => text.isPrefixOf (s.drop j)) i _ hpre]
        · rw [if_neg hpre, ih (skipLine s i) (by omega), find?_cons_neg (fun j => text.isPrefixOf (s.drop j)) i _ hpre]
      · by_cases hblk : i + 2 ≤ s.length ∧ s.getD i ' ' = '/' ∧ s.getD (i + 1) ' ' = '*'
        · -- block comment branch: jump past the closing delimiter, or bail out
          simp only [if_neg hline, if_pos hblk]
          rcases hsb : skipBlock s (i + 2) with _ | j
          all_goals dsimp only
          · by_cases hpre : text.isPrefixOf (s.drop i)
            · rw [if_pos hpre, find?_cons_pos (fun j => text.isPrefixOf (s.drop j)) i _ hpre]
            · rw [if_neg hpre, find?_cons_neg (fun j => text.isPrefixOf (s.drop j)) i _ hpre, List.find?_nil]
              rfl
          · have hadv := skipBlock_some_ge s (i + 2) j hsb
            by_cases hpre : text.isPrefixOf (s.drop i)
            · rw [if_pos hpre, find?_cons_pos (fun j => text.isPrefixOf (s.drop j)) i _ hpre]
            · rw [if_neg hpre, ih j (by omega), find?_cons_neg (fun j => text.isPrefixOf (s.drop j)) i _ hpre]
        · -- ordinary byte: advance one position
          simp only [if_neg hline, if_neg hblk]
          by_cases hpre : text.isPrefixOf (s.drop i)
          · rw [if_pos hpre, find?_cons_pos (fun j => text.isPrefixOf (s.drop j)) i _ hpre]
          · rw [if_neg hpre, ih (i + 1) (by omega), find?_cons_neg (fun j => text.isPrefixOf (s.drop j)) i _ hpre]
    · rw [findTextLoopAux, if_neg hi]
      rw [stopsAux]
      simp [if_neg hi]

/-- C3 (counterexample).  The claim says `findText` returns one single
"not found" sentinel whenever the buffer is exhausted without a match,
including when the scan ends inside an unterminated block comment.  It does
not: the normal not-found sentinel is `-1` (src/main.go:237), but from inside
an unterminated block comment the function returns `0` (src/main.go:226),
which is also a perfectly valid match offset, not a sentinel. -/
theorem findText_not_single_sentinel :
    findText ("/*ab".toList) 0 ("else".toList) = 0 ∧
    findText ("xyzw".toList) 0 ("else".toList) = -1 ∧
    (0 : Int) ≠ -1 := by
  refine ⟨by decide, by decide, by decide⟩

/-- C3 (amended).  `findText s start text` returns the first offset, among
the positions the comment-skipping scan visits from `start` (exactly the
offsets at or after `start` lying neither inside a line comment nor inside a
block comment), at which `text` is a literal prefix of the remaining bytes;
every such visited position is at or after `start`.  When no visited
position matches, it returns the sentinel `-1` if the scan reached the end
of the buffer, but `0` (not the sentinel) if the scan ended inside an
unterminated block comment. -/
theorem findText_amended_contract (s text : List Char) (start : Nat) :
    (findText s start text =
      match (stops s start).1.find? (fun j => text.isPrefixOf (s.drop j)) with
      | some j => (j : Int)
      | none => if (stops s start).2 then -1 else 0) ∧
    ∀ j ∈ (stops s start).1, start ≤ j := by
  constructor
  · exact findTextLoopAux_eq_stops s text (s.length + 1) start (by omega)
  · exact fun j hj => stopsAux_ge s (s.length + 1) start j hj

/-! ## Syntax-tree model

The subset of `go/ast` that `File.Visit` (src/main.go:241-317) inspects.
Positions are byte offsets into the original source (the Go code converts
`token.Pos` to offsets via `File.offset`, src/main.go:320-322; we store the
offsets directly).  `line` is the 1-based source line of the statement's
starting position (`fset.Position(n.Pos()).Line`).  A statement is

* `ifStmt pos line ini cond body bodyEnd els endOff` — an `*ast.IfStmt`:
  optional initializer, condition, body block (its statement list plus the
  offset `bodyEnd` of `Body.End()`), optional else branch, and the offset
  `endOff` of `End()`;
* `block lbrace stmts endOff` — a `*ast.BlockStmt` (offset of `Lbrace`,
  statements, offset of `End() = Rbrace + 1`);
* `simple pos endOff children` — any other statement; `children` are the
  statements nested inside it (for, switch bodies, …), which the generic
  `ast.Walk` traversal reaches because `Visit` returns the visitor for such
  nodes.

Expressions carry no nested statements in this model (the matcher only ever
destructures `*ast.BinaryExpr` over `*ast.Ident`s, src/main.go:250-253). -/

/-- Comparison operator of a Go binary expression; only `==`/`!=` matter. -/
inductive GoOp where
  | eql
  | neq
  | otherOp
deriving DecidableEq, Repr

/-- Expression subset inspected by the matcher. -/
inductive GoExpr where
  | ident (name : String)
  | binary (op : GoOp) (x y : GoExpr)
  | otherExpr
deriving DecidableEq, Repr

/-- Statement subset walked by the visitor. -/
inductive GoStmt where
  | ifStmt (pos line : Nat) (ini : Option GoStmt) (cond : GoExpr)
      (body : List GoStmt) (bodyEnd : Nat) (els : Option GoStmt) (endOff : Nat)
  | block (lbrace : Nat) (stmts : List GoStmt) (endOff : Nat)
  | simple (pos : Nat) (endOff : Nat) (children : List GoStmt)
deriving Repr

/-- Byte offset of the node's `End()` (model of `ast.Node.End`). -/
def GoStmt.endO : GoStmt → Nat
  | .ifStmt _ _ _ _ _ _ _ e => e
  | .block _ _ e => e
  | .simple _ e _ => e

/-- Run configuration: source file name, original bytes, and the
`-error-percent` flag value (src/main.go:172).  The flag is a Go `float64`;
we model it as an exact rational, which agrees with the float computation at
every value where the arithmetic `100/p` is exact in binary floating point —
in particular at `p = 5, 100, 200` used in the theorems below. -/
structure Config where
  name : String
  content : List Char
  errorPercent : ℚ

/-- Truncation of a rational toward zero, the semantics of Go's `int(f)`
conversion for a `float64` (`Int.tdiv` rounds toward zero). -/
def ratTrunc (q : ℚ) : ℤ :=
  Int.tdiv q.num (q.den : ℤ)

/-- The injected probability denominator `int(100 / (*errorPercent))`
(src/main.go:260). -/
def denom (errorPercent : ℚ) : ℤ :=
  ratTrunc (100 / errorPercent)

/-- The instantiated injection template (src/main.go:256-265): the text of
the `fmt.Sprintf` whose verbs are filled with the renamed rand package, the
denominator, the renamed fmt package, and the file name / line of the
matched guard. -/
def injTemplate (cfg : Config) (line : Nat) : List Char :=
  ("if _errorsmith_rand_.Int() % " ++ toString (denom cfg.errorPercent) ++ " == 0 \x7b\n"
    ++ "    _errorsmith_fmt_.Printf(\"injected error at " ++ cfg.name ++ ":"
    ++ toString line ++ "\\n\")\n"
    ++ "    err = _errorsmith_fmt_.Errorf(\"injected error at " ++ cfg.name ++ ":"
    ++ toString line ++ "\")\n"
    ++ "\x7d\n").toList

/-- Guard-shape test (src/main.go:250-253): the condition is a
`*ast.BinaryExpr` whose `X` is the identifier `err`, whose operator is `==`
or `!=`, and whose `Y` is the identifier `nil`.  Everything else — in
particular any other identifier, a reversed `nil != err`, or a parenthesized
operand — is not matched. -/
def guardMatch : GoExpr → Bool
  | .binary op (.ident x) (.ident y) =>
    x == "err" && (op == GoOp.eql || op == GoOp.neq) && y == "nil"
  | _ => false

/-- Accumulated effects of a walk: the `(offset, text)` insertions recorded
in the edit buffer, in recording order, and the trace of visited statements
(starting offsets of the `ifStmt`/`simple` statements, in visit order; block
nodes are pure containers and contribute neither edits nor trace). -/
structure Res where
  edits : List (Nat × List Char)
  trace : List Nat
deriving DecidableEq, Repr

/-- Concatenation of walk effects, in order. -/
def Res.app (a b : Res) : Res :=
  ⟨a.edits ++ b.edits, a.trace ++ b.trace⟩

/-- The literal keyword the visitor looks up in the source text
(src/main.go:287). -/
def elseKeyword : List Char := "else".toList

mutual

/-- Model of `ast.Walk(f, n)` with the visitor `File.Visit`
(src/main.go:241-317).  `ast.Walk` calls `Visit(n)` first; `Visit` returns
`nil` for an `*ast.IfStmt` after walking its parts manually, so its children
are never re-walked, and returns the visitor unchanged for every other node,
so `ast.Walk` then walks the children generically.  The if-statement arm
follows src/main.go:244-314 line by line:

* walk the initializer when present (245-247);
* when there is no initializer and the condition has the guard shape,
  insert the injection template at the statement's starting offset
  (248-270);
* walk the condition (271; no statements live inside the modelled
  expressions, so this contributes nothing) and the body (272);
* stop if there is no else (273-275);
* locate the literal `else` keyword after the body (287); a negative result
  is the `panic("lost else")` (288-290);
* insert `"{"` just after the keyword and `"}"` at the else branch's
  `End()` offset (291-292);
* normalize the else branch (298-311): an `*ast.IfStmt` else is wrapped in
  a synthetic block whose sole statement it is, and walking that block is
  exactly walking the nested if (blocks contribute nothing of their own:
  see `goWalk_singleton_block` below), so the model recurses on the nested
  if directly; a `*ast.BlockStmt` else has its `Lbrace` repositioned, which
  affects no subsequent edit or trace, and is then walked; any other node
  kind is `panic("unexpected node type in if")`. -/
def goWalk (cfg : Config) : GoStmt → Except String Res
  | .simple p _ cs =>
    (goWalkList cfg cs).map fun r => ⟨r.edits, p :: r.trace⟩
  | .block _ cs _ => goWalkList cfg cs
  | .ifStmt pos line ini cond body bodyEnd els _ =>
    (goWalkOpt cfg ini).bind fun ri =>
      let inj : List (Nat × List Char) :=
        if ini.isNone && guardMatch cond then [(pos, injTemplate cfg line)] else []
      (goWalkList cfg body).bind fun rb =>
        match els with
        | none => .ok ⟨ri.edits ++ inj ++ rb.edits, pos :: (ri.trace ++ rb.trace)⟩
        | some e =>
          let k := findText cfg.content bodyEnd elseKeyword
          if k < 0 then .error "lost else"
          else
            let braces : List (Nat × List Char) :=
              [(k.toNat + 4, ['\x7b']), (e.endO, ['\x7d'])]
            (goWalkElse cfg e).map fun re =>
              ⟨ri.edits ++ inj ++ rb.edits ++ braces ++ re.edits,
               pos :: (ri.trace ++ rb.trace ++ re.trace)⟩
termination_by t => (sizeOf t, 0)

/-- Normalize-and-walk of an else branch (the `switch` of src/main.go:299-311
followed by `ast.Walk(f, n.Else)` on line 312): a nested conditional is
wrapped in a synthetic one-statement block and that block is walked — which
is exactly walking the nested conditional, since block nodes contribute no
effects of their own (`goWalk_singleton_block` below); a block else has its
`Lbrace` repositioned (behaviorally inert) and is walked; anything else is
`panic("unexpected node type in if")`. -/
def goWalkElse (cfg : Config) : GoStmt → Except String Res
  | .ifStmt p l i c b be e en => goWalk cfg (.ifStmt p l i c b be e en)
  | .block _ cs _ => goWalkList cfg cs
  | .simple _ _ _ => .error "unexpected node type in if"
termination_by e => (sizeOf e, 1)

/-- Walk of an optional child: `if n.Init != nil { ast.Walk(f, n.Init) }`
(src/main.go:245-247). -/
def goWalkOpt (cfg : Config) : Option GoStmt → Except String Res
  | none => .ok ⟨[], []⟩
  | some s => goWalk cfg s
termination_by o => (sizeOf o, 0)

/-- Generic walk of a statement list, short-circuiting on the first fatal
condition, concatenating effects in source order. -/
def goWalkList (cfg : Config) : List GoStmt → Except String Res
  | [] => .ok ⟨[], []⟩
  | s :: rest =>
    (goWalk cfg s).bind fun r1 =>
      (goWalkList cfg rest).map fun r2 => r1.app r2
termination_by l => (sizeOf l, 0)

end

/-! ## Independent enumerations used to specify the walk -/

mutual

/-- Pre-order, source-order enumeration of the starting offsets of the
statements (`ifStmt`/`simple` nodes) of a tree.  Defined independently of
the walk: a statement, then its initializer's statements, then its body's,
then its else branch's. -/
def preorder : GoStmt → List Nat
  | .simple p _ cs => p :: preorderList cs
  | .block _ cs _ => preorderList cs
  | .ifStmt pos _ ini _ body _ els _ =>
    pos :: (preorderOpt ini ++ preorderList body ++ preorderOpt els)

/-- Pre-order enumeration of a statement list. -/
def preorderList : List GoStmt → List Nat
  | [] => []
  | s :: rest => preorder s ++ preorderList rest

/-- Pre-order enumeration of an optional statement. -/
def preorderOpt : Option GoStmt → List Nat
  | none => []
  | some s => preorder s

end

mutual

/-- The guard sites of a tree: `(starting offset, line)` of every
conditional statement with no initializer whose condition has the guard
shape, in pre-order. -/
def guardSites : GoStmt → List (Nat × Nat)
  | .simple _ _ cs => guardSitesList cs
  | .block _ cs _ => guardSitesList cs
  | .ifStmt pos line ini cond body _ els _ =>
    (if ini.isNone && guardMatch cond then [(pos, line)] else [])
      ++ guardSitesOpt ini ++ guardSitesList body ++ guardSitesOpt els

/-- Guard sites of a statement list. -/
def guardSitesList : List GoStmt → List (Nat × Nat)
  | [] => []
  | s :: rest => guardSites s ++ guardSitesList rest

/-- Guard sites of an optional statement. -/
def guardSitesOpt : Option GoStmt → List (Nat × Nat)
  | none => []
  | some s => guardSites s

end

/-- An edit whose text is one of the two brace insertions of the else-chain
normalizer. -/
def isBraceEdit (e : Nat × List Char) : Bool :=
  e.2 == ['\x7b'] || e.2 == ['\x7d']

/-- The non-brace (injection) edits of an edit list. -/
def injEdits (l : List (Nat × List Char)) : List (Nat × List Char) :=
  l.filter (fun e => !isBraceEdit e)

/-- Map a guard site to its injection edit. -/
def siteEdit (cfg : Config) (s : Nat × Nat) : Nat × List Char :=
  (s.1, injTemplate cfg s.2)

/-- An injection template always begins with the two characters `if`. -/
theorem injTemplate_take (cfg : Config) (line : Nat) :
    (injTemplate cfg line).take 2 = ['i', 'f'] := by
  simp only [injTemplate, String.toList, String.data_append]
  rfl

/-- An injection template is never a single brace: it starts with the
literal text `if _errorsmith_rand_…`. -/
theorem injTemplate_not_brace (cfg : Config) (line : Nat) (p : Nat) :
    isBraceEdit (p, injTemplate cfg line) = false := by
  have h2 := injTemplate_take cfg line
  simp only [isBraceEdit]
  rw [Bool.or_eq_false_iff]
  constructor <;>
    { rw [beq_eq_false_iff_ne]
      intro he
      rw [he] at h2
      simp at h2 }

/-- Unfolding lemma for `goWalk` on a `simple` statement. -/
theorem goWalk_simple (cfg : Config) (p en : Nat) (cs : List GoStmt) :
    goWalk cfg (.simple p en cs) =
      (goWalkList cfg cs).map fun r => ⟨r.edits, p :: r.trace⟩ := by
  simp only [goWalk]

/-- Unfolding lemma for `goWalk` on a block. -/
theorem goWalk_block (cfg : Config) (lb en : Nat) (cs : List GoStmt) :
    goWalk cfg (.block lb cs en) = goWalkList cfg cs := by
  simp only [goWalk]

/-- Unfolding lemma for `goWalk` on a conditional. -/
theorem goWalk_ifStmt (cfg : Config) (pos line : Nat) (ini : Option GoStmt)
    (cond : GoExpr) (body : List GoStmt) (bodyEnd : Nat) (els : Option GoStmt)
    (endOff : Nat) :
    goWalk cfg (.ifStmt pos line ini cond body bodyEnd els endOff) =
      ((goWalkOpt cfg ini).bind fun ri =>
        let inj : List (Nat × List Char) :=
          if ini.isNone && guardMatch cond then [(pos, injTemplate cfg line)] else []
        (goWalkList cfg body).bind fun rb =>
          match els with
          | none => .ok ⟨ri.edits ++ inj ++ rb.edits, pos :: (ri.trace ++ rb.trace)⟩
          | some e =>
            let k := findText cfg.content bodyEnd elseKeyword
            if k < 0 then .error "lost else"
            else
              let braces : List (Nat × List Char) :=
                [(k.toNat + 4, ['\x7b']), (e.endO, ['\x7d'])]
              (goWalkElse cfg e).map fun re =>
                ⟨ri.edits ++ inj ++ rb.edits ++ braces ++ re.edits,
                 pos :: (ri.trace ++ rb.trace ++ re.trace)⟩) := by
  simp only [goWalk]

/-- Unfolding lemma for `goWalkElse`. -/
theorem goWalkElse_ifStmt (cfg : Config) (p l : Nat) (i : Option GoStmt)
    (c : GoExpr) (b : List GoStmt) (be : Nat) (e : Option GoStmt) (en : Nat) :
    goWalkElse cfg (.ifStmt p l i c b be e en) =
      goWalk cfg (.ifStmt p l i c b be e en) := by
  simp only [goWalkElse]

/-- Unfolding lemma for `goWalkElse`. -/
theorem goWalkElse_block (cfg : Config) (lb en : Nat) (cs : List GoStmt) :
    goWalkElse cfg (.block lb cs en) = goWalkList cfg cs := by
  simp only [goWalkElse]

/-- Unfolding lemma for `goWalkElse`. -/
theorem goWalkElse_simple (cfg : Config) (p en : Nat) (cs : List GoStmt) :
    goWalkElse cfg (.simple p en cs) = .error "unexpected node type in if" := by
  simp only [goWalkElse]

/-- Unfolding lemma for `goWalkOpt`. -/
theorem goWalkOpt_none (cfg : Config) : goWalkOpt cfg none = .ok ⟨[], []⟩ := by
  simp only [goWalkOpt]

/-- Unfolding lemma for `goWalkOpt`. -/
theorem goWalkOpt_some (cfg : Config) (s : GoStmt) :
    goWalkOpt cfg (some s) = goWalk cfg s := by
  simp only [goWalkOpt]

/-- Unfolding lemma for `goWalkList`. -/
theorem goWalkList_nil (cfg : Config) : goWalkList cfg [] = .ok ⟨[], []⟩ := by
  simp only [goWalkList]

/-- Unfolding lemma for `goWalkList`. -/
theorem goWalkList_cons (cfg : Config) (s : GoStmt) (rest : List GoStmt) :
    goWalkList cfg (s :: rest) =
      (goWalk cfg s).bind fun r1 =>
        (goWalkList cfg rest).map fun r2 => r1.app r2 := by
  simp only [goWalkList]

/-- Filtering injection edits distributes over concatenation. -/
theorem injEdits_append (a b : List (Nat × List Char)) :
    injEdits (a ++ b) = injEdits a ++ injEdits b := by
  simp [injEdits, List.filter_append]

/-- The two brace insertions of the normalizer are not injection edits. -/
theorem injEdits_braces (a b : Nat) :
    injEdits [(a, ['\x7b']), (b, ['\x7d'])] = [] := rfl

/-- Brace insertions at the head of an edit list are dropped by the filter. -/
theorem injEdits_brace_cons (a b : Nat) (l : List (Nat × List Char)) :
    injEdits ((a, ['\x7b']) :: (b, ['\x7d']) :: l) = injEdits l := by
  simp [injEdits, isBraceEdit]

/-- A single injection edit survives the filter. -/
theorem injEdits_single (cfg : Config) (p line : Nat) :
    injEdits [(p, injTemplate cfg line)] = [(p, injTemplate cfg line)] := by
  simp [injEdits, injTemplate_not_brace]

/-- An injection edit at the head of an edit list survives the filter. -/
theorem injEdits_inj_cons (cfg : Config) (p line : Nat) (l : List (Nat × List Char)) :
    injEdits ((p, injTemplate cfg line) :: l) =
      (p, injTemplate cfg line) :: injEdits l := by
  simp [injEdits, injTemplate_not_brace]

mutual

/-- Master characterization of a successful walk of one statement: the trace
is exactly the independent pre-order statement enumeration, and the
non-brace edits are exactly one instantiated injection template per guard
site, in pre-order. -/
theorem goWalk_spec (cfg : Config) (t : GoStmt) (r : Res)
    (h : goWalk cfg t = .ok r) :
    r.trace = preorder t ∧
      injEdits r.edits = (guardSites t).map (siteEdit cfg) := by
  cases t with
  | simple p en cs =>
    rw [goWalk_simple] at h
    cases hcs : goWalkList cfg cs with
    | error e => rw [hcs] at h; exact absurd h (by simp [Except.map])
    | ok r1 =>
      rw [hcs] at h
      simp only [Except.map, Except.ok.injEq] at h
      subst h
      obtain ⟨h1, h2⟩ := goWalkList_spec cfg cs r1 hcs
      exact ⟨by simp [preorder, h1], by simpa [guardSites] using h2⟩
  | block lb cs en =>
    rw [goWalk_block] at h
    obtain ⟨h1, h2⟩ := goWalkList_spec cfg cs r h
    exact ⟨by simpa [preorder] using h1, by simpa [guardSites] using h2⟩
  | ifStmt pos line ini cond body bodyEnd els endOff =>
    rw [goWalk_ifStmt] at h
    cases hri : goWalkOpt cfg ini with
    | error e => rw [hri] at h; exact absurd h (by simp [Except.bind])
    | ok ri =>
    rw [hri] at h
    simp only [Except.bind] at h
    cases hrb : goWalkList cfg body with
    | error e => rw [hrb] at h; exact absurd h (by simp)
    | ok rb =>
    rw [hrb] at h
    obtain ⟨hi1, hi2⟩ := goWalkOpt_spec cfg ini ri hri
    obtain ⟨hb1, hb2⟩ := goWalkList_spec cfg body rb hrb
    cases els with
    | none =>
      simp only [Except.ok.injEq] at h
      subst h
      refine ⟨by simp [preorder, preorderOpt, hi1, hb1], ?_⟩
      by_cases hg : (ini.isNone && guardMatch cond) = true
      · have hnone : ini = none := by
          rcases ini with _ | s
          · rfl
          · simp at hg
        subst hnone
        rw [goWalkOpt_none] at hri
        simp only [Except.ok.injEq] at hri
        subst hri
        have hg2 : guardMatch cond = true := by simpa using hg
        simp [guardSites, guardSitesOpt, hg2, injEdits_append, injEdits_single,
          injEdits_inj_cons, hb2, siteEdit, injTemplate_not_brace]
      · simp only [Bool.not_eq_true] at hg
        simp [guardSites, guardSitesOpt, hg, injEdits_append, hi2, hb2]
    | some e =>
      dsimp only at h
      by_cases hk : findText cfg.content bodyEnd elseKeyword < 0
      · rw [if_pos hk] at h
        exact absurd h (by simp)
      · rw [if_neg hk] at h
        cases hre : goWalkElse cfg e with
        | error m => rw [hre] at h; exact absurd h (by simp [Except.map])
        | ok re =>
        rw [hre] at h
        simp only [Except.map, Except.ok.injEq] at h
        subst h
        obtain ⟨he1, he2⟩ := goWalkElse_spec cfg e re hre
        refine ⟨by simp [preorder, preorderOpt, hi1, hb1, he1], ?_⟩
        by_cases hg : (ini.isNone && guardMatch cond) = true
        · have hnone : ini = none := by
            rcases ini with _ | s
            · rfl
            · simp at hg
          subst hnone
          rw [goWalkOpt_none] at hri
          simp only [Except.ok.injEq] at hri
          subst hri
          have hg2 : guardMatch cond = true := by simpa using hg
          simp [guardSites, guardSitesOpt, hg2, injEdits_append, injEdits_brace_cons,
            injEdits_single, injEdits_inj_cons, hb2, he2, siteEdit, injTemplate_not_brace]
        · simp only [Bool.not_eq_true] at hg
          simp [guardSites, guardSitesOpt, hg, injEdits_append, injEdits_brace_cons,
            hi2, hb2, he2]
termination_by (sizeOf t, 0)
decreasing_by all_goals
  subst_vars
  simp_wf
  first
    | exact Prod.Lex.right _ (by omega)
    | exact Prod.Lex.left _ _ (by omega)

/-- Master characterization for a walked else branch: same contract as
`goWalk_spec` (the synthetic block around a nested conditional changes
nothing). -/
theorem goWalkElse_spec (cfg : Config) (t : GoStmt) (r : Res)
    (h : goWalkElse cfg t = .ok r) :
    r.trace = preorder t ∧
      injEdits r.edits = (guardSites t).map (siteEdit cfg) := by
  cases t with
  | ifStmt p l i c b be e en =>
    rw [goWalkElse_ifStmt] at h
    exact goWalk_spec cfg (.ifStmt p l i c b be e en) r h
  | block lb cs en =>
    rw [goWalkElse_block] at h
    obtain ⟨h1, h2⟩ := goWalkList_spec cfg cs r h
    exact ⟨by simpa [preorder] using h1, by simpa [guardSites] using h2⟩
  | simple p en cs =>
    rw [goWalkElse_simple] at h
    exact absurd h (by simp)
termination_by (sizeOf t, 1)
decreasing_by all_goals
  subst_vars
  simp_wf
  first
    | exact Prod.Lex.right _ (by omega)
    | exact Prod.Lex.left _ _ (by omega)

/-- Master characterization for an optional child. -/
theorem goWalkOpt_spec (cfg : Config) (o : Option GoStmt) (r : Res)
    (h : goWalkOpt cfg o = .ok r) :
    r.trace = preorderOpt o ∧
      injEdits r.edits = (guardSitesOpt o).map (siteEdit cfg) := by
  cases o with
  | none =>
    rw [goWalkOpt_none] at h
    simp only [Except.ok.injEq] at h
    subst h
    simp [preorderOpt, guardSitesOpt, injEdits]
  | some s =>
    rw [goWalkOpt_some] at h
    have hs := goWalk_spec cfg s r h
    exact ⟨by simpa [preorderOpt] using hs.1, by simpa [guardSitesOpt] using hs.2⟩
termination_by (sizeOf o, 0)
decreasing_by all_goals
  subst_vars
  simp_wf
  first
    | exact Prod.Lex.right _ (by omega)
    | exact Prod.Lex.left _ _ (by omega)

/-- Master characterization for a statement list. -/
theorem goWalkList_spec (cfg : Config) (l : List GoStmt) (r : Res)
    (h : goWalkList cfg l = .ok r) :
    r.trace = preorderList l ∧
      injEdits r.edits = (guardSitesList l).map (siteEdit cfg) := by
  cases l with
  | nil =>
    rw [goWalkList_nil] at h
    simp only [Except.ok.injEq] at h
    subst h
    simp [preorderList, guardSitesList, injEdits]
  | cons s rest =>
    rw [goWalkList_cons] at h
    cases h1 : goWalk cfg s with
    | error e => rw [h1] at h; exact absurd h (by simp [Except.bind])
    | ok r1 =>
      rw [h1] at h
      simp only [Except.bind] at h
      cases h2 : goWalkList cfg rest with
      | error e => rw [h2] at h; exact absurd h (by simp [Except.map])
      | ok r2 =>
        rw [h2] at h
        simp only [Except.map, Except.ok.injEq] at h
        subst h
        obtain ⟨ha1, ha2⟩ := goWalk_spec cfg s r1 h1
        obtain ⟨hc1, hc2⟩ := goWalkList_spec cfg rest r2 h2
        exact ⟨by simp [Res.app, preorderList, ha1, hc1],
          by simp [Res.app, preorderList, guardSitesList, injEdits_append, ha2, hc2]⟩
termination_by (sizeOf l, 0)
decreasing_by all_goals
  subst_vars
  simp_wf
  first
    | exact Prod.Lex.right _ (by omega)
    | exact Prod.Lex.left _ _ (by omega)

end

/-- Walking a one-statement block is exactly walking the statement: block
nodes contribute no edits and no trace of their own.  This is why the model
may recurse on the nested conditional directly where the Go code walks the
synthetic block wrapping it. -/
theorem goWalk_singleton_block (cfg : Config) (lb en : Nat) (s : GoStmt) :
    goWalk cfg (.block lb [s] en) = goWalk cfg s := by
  rw [goWalk_block, goWalkList_cons, goWalkList_nil]
  cases hgs : goWalk cfg s <;> simp [Except.bind, Except.map, Res.app]

/-- The tree mutation of the else-chain normalizer (src/main.go:298-311),
applied to the original else branch, with `pos` the offset just after the
inserted opening brace (`elseOffset + 4`): a nested conditional is replaced
by a synthetic block whose `Lbrace` is `pos`, whose sole statement is the
conditional, and whose `Rbrace` is the conditional's `End()` (so the block's
`End()` is one past it); a block else keeps its statements and `End()` but
has its `Lbrace` moved to `pos`; any other shape is
`panic("unexpected node type in if")`. -/
def normalizedElse (pos : Nat) : GoStmt → Except String GoStmt
  | .ifStmt p l i c b be e en =>
    .ok (.block pos [.ifStmt p l i c b be e en] (en + 1))
  | .block _ cs en => .ok (.block pos cs en)
  | .simple _ _ _ => .error "unexpected node type in if"

/-- Walking an else branch is: normalize it (src/main.go:298-311), then walk
the normalized node (src/main.go:312). -/
theorem goWalkElse_eq_normalized (cfg : Config) (pos : Nat) (e : GoStmt) :
    goWalkElse cfg e = (normalizedElse pos e).bind (goWalk cfg) := by
  cases e with
  | ifStmt p l i c b be e2 en =>
    rw [goWalkElse_ifStmt]
    simp [normalizedElse, Except.bind, goWalk_singleton_block]
  | block lb cs en =>
    rw [goWalkElse_block]
    simp [normalizedElse, Except.bind, goWalk_block]
  | simple p en cs =>
    rw [goWalkElse_simple]
    simp [normalizedElse, Except.bind]

/-! ## Concrete fixtures used by the witnesses

Each fixture is a tiny source text together with the syntax tree the Go
parser would produce for it (offsets computed by hand and checked by the
witness proofs). -/

/-- `if err == nil {}` at 5 percent. -/
def guardCfg : Config := ⟨"g.go", "if err == nil \x7b\x7d".toList, 5⟩

/-- The tree of `if err == nil {}`. -/
def guardTree : GoStmt :=
  .ifStmt 0 1 none (.binary .eql (.ident "err") (.ident "nil")) [] 16 none 16

/-- Same source, error likelihood 200 percent. -/
def cfg200 : Config := ⟨"g.go", "if err == nil \x7b\x7d".toList, 200⟩

/-- A guarded and an unguarded conditional side by side. -/
def mixedTree : GoStmt :=
  .block 0
    [.ifStmt 0 1 none (.binary .eql (.ident "err") (.ident "nil")) [] 16 none 16,
     .ifStmt 20 2 none (.binary .eql (.ident "x") (.ident "nil")) [] 36 none 36]
    40

/-- `if x {} else if err == nil {}` at 5 percent. -/
def chainCfg : Config := ⟨"t.go", "if x \x7b\x7d else if err == nil \x7b\x7d".toList, 5⟩

/-- The nested `if err == nil {}` of the chain (starts at offset 13). -/
def chainNested : GoStmt :=
  .ifStmt 13 1 none (.binary .eql (.ident "err") (.ident "nil")) [] 29 none 29

/-- The chain `if x {} else if err == nil {}` (body ends at offset 7). -/
def chainTree : GoStmt :=
  .ifStmt 0 1 none .otherExpr [] 7 (some chainNested) 29

/-- `if err != nil {} else { x }` at 5 percent. -/
def blockElseCfg : Config := ⟨"t.go", "if err != nil \x7b\x7d else \x7b x \x7d".toList, 5⟩

/-- The tree of `if err != nil {} else { x }`: the else is a plain block
holding one ordinary statement. -/
def blockElseTree : GoStmt :=
  .ifStmt 0 1 none (.binary .neq (.ident "err") (.ident "nil")) [] 16
    (some (.block 22 [.simple 24 25 []] 27)) 27

/-- A conditional with an initializer whose body holds a nested guard,
`if err, ok := f(); err != nil { if err == nil {} }`. -/
def initTree : GoStmt :=
  .ifStmt 0 1 (some (.simple 3 17 []))
    (.binary .neq (.ident "err") (.ident "nil"))
    [.ifStmt 32 1 none (.binary .eql (.ident "err") (.ident "nil")) [] 48 none 48]
    50 none 50

/-! ## Claim theorems -/

/-- C9.  On every successfully walked tree, the visitor visits each
statement reachable from the root exactly once, in a pre-order, source-order
traversal: the visit trace equals the independent pre-order enumeration of
the tree's statements (so the manually-walked initializer, condition, body
and alternative of a conditional are not re-walked by the generic
traversal), and whenever the statements' starting offsets are distinct — as
they are in any parsed file — no statement is visited twice. -/
theorem visit_trace_is_preorder (cfg : Config) (t : GoStmt) (r : Res)
    (h : goWalk cfg t = .ok r) :
    r.trace = preorder t ∧ ((preorder t).Nodup → r.trace.Nodup) :=
  ⟨(goWalk_spec cfg t r h).1,
   fun hn => ((goWalk_spec cfg t r h).1).symm ▸ hn⟩

/-- Witness for `visit_trace_is_preorder` on the `if x {} else if err == nil {}`
chain. -/
theorem visit_trace_is_preorder_witness :
    goWalk chainCfg chainTree =
      .ok ⟨[(12, ['\x7b']), (29, ['\x7d']), (13, injTemplate chainCfg 1)], [0, 13]⟩ ∧
    (([0, 13] : List Nat) = preorder chainTree ∧
      ((preorder chainTree).Nodup → ([0, 13] : List Nat).Nodup)) := by
  have hf : findText chainCfg.content 7 elseKeyword = 8 := by decide
  have hw : goWalk chainCfg chainTree =
      .ok ⟨[(12, ['\x7b']), (29, ['\x7d']), (13, injTemplate chainCfg 1)], [0, 13]⟩ := by
    simp [chainCfg] at hf
    simp [goWalk, goWalkOpt, goWalkList, goWalkElse, guardMatch, chainCfg, chainTree,
      chainNested, Except.bind, Except.map, GoStmt.endO, hf]
  exact ⟨hw, visit_trace_is_preorder chainCfg chainTree _ hw⟩

/-- C4.  An injection edit is recorded for a conditional iff it has no
initializer clause and its condition is exactly a binary `==`/`!=` whose
left operand is the identifier `err` and whose right operand is the
identifier `nil`: on every successfully walked tree, the non-brace edits are
exactly one edit per guard site, placed at the site's starting byte offset,
in traversal order — so every non-matching conditional contributes no edit
at its own statement.  Each recorded text is the injection template, which
contains the source file name immediately followed by `:` and the
statement's originating line number. -/
theorem guard_shape_edit_iff (cfg : Config) (t : GoStmt) (r : Res)
    (h : goWalk cfg t = .ok r) :
    injEdits r.edits = (guardSites t).map (siteEdit cfg) ∧
    ∀ line : Nat, ∃ pre post : List Char,
      injTemplate cfg line =
        pre ++ cfg.name.toList ++ (":" ++ toString line).toList ++ post := by
  refine ⟨(goWalk_spec cfg t r h).2, fun line => ?_⟩
  refine ⟨("if _errorsmith_rand_.Int() % " ++ toString (denom cfg.errorPercent)
      ++ " == 0 \x7b\n" ++ "    _errorsmith_fmt_.Printf(\"injected error at ").toList,
    ("\\n\")\n" ++ "    err = _errorsmith_fmt_.Errorf(\"injected error at "
      ++ cfg.name ++ ":" ++ toString line ++ "\")\n" ++ "\x7d\n").toList, ?_⟩
  simp only [injTemplate, String.toList, String.data_append, List.append_assoc]

/-- Witness for `guard_shape_edit_iff` on a tree holding one guard-shaped
conditional (offset 0) and one non-matching conditional (offset 20, condition
`x == nil`): exactly one injection edit, at offset 0. -/
theorem guard_shape_edit_iff_witness :
    goWalk guardCfg mixedTree = .ok ⟨[(0, injTemplate guardCfg 1)], [0, 20]⟩ ∧
    (injEdits (Res.mk [(0, injTemplate guardCfg 1)] [0, 20]).edits =
        (guardSites mixedTree).map (siteEdit guardCfg) ∧
      ∀ line : Nat, ∃ pre post : List Char,
        injTemplate guardCfg line =
          pre ++ guardCfg.name.toList ++ (":" ++ toString line).toList ++ post) := by
  have hw : goWalk guardCfg mixedTree =
      .ok ⟨[(0, injTemplate guardCfg 1)], [0, 20]⟩ := by
    simp [goWalk, goWalkOpt, goWalkList, guardMatch, guardCfg, mixedTree,
      Except.bind, Except.map, Res.app]
  exact ⟨hw, guard_shape_edit_iff guardCfg mixedTree _ hw⟩

/-- C6.  A conditional with an initializer clause produces no injection edit
for itself, yet its initializer and body (and alternative) are still
traversed: its trace is the statement followed by the pre-order enumerations
of the initializer, body and alternative, and its injection edits are
exactly the guard sites found inside those children — the statement's own
offset and line contribute nothing. -/
theorem init_clause_no_injection (cfg : Config) (pos line : Nat) (s : GoStmt)
    (cond : GoExpr) (body : List GoStmt) (bodyEnd : Nat) (els : Option GoStmt)
    (endOff : Nat) (r : Res)
    (h : goWalk cfg (.ifStmt pos line (some s) cond body bodyEnd els endOff) = .ok r) :
    r.trace = pos :: (preorder s ++ preorderList body ++ preorderOpt els) ∧
    injEdits r.edits =
      (guardSites s ++ guardSitesList body ++ guardSitesOpt els).map (siteEdit cfg) := by
  have hs := goWalk_spec cfg _ r h
  refine ⟨by simpa [preorder, preorderOpt] using hs.1, ?_⟩
  have h2 := hs.2
  simp only [guardSites, guardSitesOpt] at h2
  simpa using h2

/-- Witness for `init_clause_no_injection` on
`if err, ok := f(); err != nil { if err == nil {} }`: no edit for the outer
statement (even though its condition is guard-shaped), one injection for the
nested guard, with initializer and body traversed. -/
theorem init_clause_no_injection_witness :
    goWalk guardCfg initTree = .ok ⟨[(32, injTemplate guardCfg 1)], [0, 3, 32]⟩ ∧
    ((Res.mk [(32, injTemplate guardCfg 1)] [0, 3, 32]).trace =
        0 :: (preorder (.simple 3 17 []) ++
          preorderList
            [.ifStmt 32 1 none (.binary .eql (.ident "err") (.ident "nil")) [] 48 none 48]
          ++ preorderOpt none) ∧
      injEdits (Res.mk [(32, injTemplate guardCfg 1)] [0, 3, 32]).edits =
        (guardSites (.simple 3 17 []) ++
          guardSitesList
            [.ifStmt 32 1 none (.binary .eql (.ident "err") (.ident "nil")) [] 48 none 48]
          ++ guardSitesOpt none).map (siteEdit guardCfg)) := by
  have hw : goWalk guardCfg initTree =
      .ok ⟨[(32, injTemplate guardCfg 1)], [0, 3, 32]⟩ := by
    simp [goWalk, goWalkOpt, goWalkList, guardMatch, guardCfg, initTree,
      Except.bind, Except.map, Res.app]
  exact ⟨hw, init_clause_no_injection guardCfg 0 1 (.simple 3 17 [])
    (.binary .neq (.ident "err") (.ident "nil"))
    [.ifStmt 32 1 none (.binary .eql (.ident "err") (.ident "nil")) [] 48 none 48]
    50 none 50 _ hw⟩

/-- C5.  For a conditional whose alternative is itself a conditional, the
normalizer records exactly two edits — `"{"` at `elseOffset + 4`
(immediately after the located `else` keyword) and `"}"` at the byte offset
of the alternative's `End()` — in between the edits of the statement's own
parts and those of the walked alternative; the in-memory alternative is
replaced by a synthetic block whose sole statement is the original nested
conditional and whose start position is the offset just after the inserted
opening brace; and walking that synthetic block is exactly walking the
nested conditional. -/
theorem else_chain_normalization (cfg : Config) (pos line : Nat)
    (ini : Option GoStmt) (cond : GoExpr) (body : List GoStmt) (bodyEnd : Nat)
    (p2 l2 : Nat) (i2 : Option GoStmt) (c2 : GoExpr) (b2 : List GoStmt)
    (be2 : Nat) (e2 : Option GoStmt) (en2 : Nat) (endOff : Nat)
    (ri rb re : Res) (k : Int)
    (hri : goWalkOpt cfg ini = .ok ri)
    (hrb : goWalkList cfg body = .ok rb)
    (hk : findText cfg.content bodyEnd elseKeyword = k)
    (hk0 : 0 ≤ k)
    (hre : goWalk cfg (.ifStmt p2 l2 i2 c2 b2 be2 e2 en2) = .ok re) :
    goWalk cfg (.ifStmt pos line ini cond body bodyEnd
        (some (.ifStmt p2 l2 i2 c2 b2 be2 e2 en2)) endOff) =
      .ok ⟨ri.edits
            ++ (if ini.isNone && guardMatch cond then [(pos, injTemplate cfg line)] else [])
            ++ rb.edits
            ++ [(k.toNat + 4, ['\x7b']), (en2, ['\x7d'])]
            ++ re.edits,
           pos :: (ri.trace ++ rb.trace ++ re.trace)⟩ ∧
    normalizedElse (k.toNat + 4) (.ifStmt p2 l2 i2 c2 b2 be2 e2 en2) =
      .ok (.block (k.toNat + 4) [.ifStmt p2 l2 i2 c2 b2 be2 e2 en2] (en2 + 1)) ∧
    goWalk cfg (.block (k.toNat + 4) [.ifStmt p2 l2 i2 c2 b2 be2 e2 en2] (en2 + 1)) =
      goWalk cfg (.ifStmt p2 l2 i2 c2 b2 be2 e2 en2) := by
  refine ⟨?_, by simp [normalizedElse], goWalk_singleton_block cfg _ _ _⟩
  rw [goWalk_ifStmt, hri]
  simp only [Except.bind]
  rw [hrb]
  dsimp only
  rw [hk, if_neg (by omega : ¬k < 0), goWalkElse_ifStmt, hre]
  simp [Except.map, GoStmt.endO]

/-- Witness for `else_chain_normalization` on
`if x {} else if err == nil {}`: the keyword is found at offset 8, the brace
edits land at 12 and 29, and the nested guard is instrumented inside the
synthetic block. -/
theorem else_chain_normalization_witness :
    (goWalkOpt chainCfg none = .ok ⟨[], []⟩ ∧
     goWalkList chainCfg [] = .ok ⟨[], []⟩ ∧
     findText chainCfg.content 7 elseKeyword = 8 ∧
     (0 : Int) ≤ 8 ∧
     goWalk chainCfg chainNested = .ok ⟨[(13, injTemplate chainCfg 1)], [13]⟩) ∧
    goWalk chainCfg (.ifStmt 0 1 none .otherExpr [] 7 (some chainNested) 29) =
      .ok ⟨(Res.mk [] []).edits
            ++ (if (none : Option GoStmt).isNone && guardMatch .otherExpr then
                  [(0, injTemplate chainCfg 1)] else [])
            ++ (Res.mk [] []).edits
            ++ [((8 : Int).toNat + 4, ['\x7b']), (29, ['\x7d'])]
            ++ (Res.mk [(13, injTemplate chainCfg 1)] [13]).edits,
           0 :: ((Res.mk [] []).trace ++ (Res.mk [] []).trace
             ++ (Res.mk [(13, injTemplate chainCfg 1)] [13]).trace)⟩ ∧
    normalizedElse ((8 : Int).toNat + 4) chainNested =
      .ok (.block ((8 : Int).toNat + 4) [chainNested] (29 + 1)) ∧
    goWalk chainCfg (.block ((8 : Int).toNat + 4) [chainNested] (29 + 1)) =
      goWalk chainCfg chainNested := by
  have h1 : goWalkOpt chainCfg none = .ok ⟨[], []⟩ := by simp [goWalkOpt]
  have h2 : goWalkList chainCfg [] = .ok ⟨[], []⟩ := by simp [goWalkList]
  have h3 : findText chainCfg.content 7 elseKeyword = 8 := by decide
  have h5 : goWalk chainCfg chainNested =
      .ok ⟨[(13, injTemplate chainCfg 1)], [13]⟩ := by
    simp [goWalk, goWalkOpt, goWalkList, guardMatch, chainCfg, chainNested,
      Except.bind, Except.map]
  have := else_chain_normalization chainCfg 0 1 none .otherExpr [] 7
    13 1 none (.binary .eql (.ident "err") (.ident "nil")) [] 29 none 29 29
    ⟨[], []⟩ ⟨[], []⟩ ⟨[(13, injTemplate chainCfg 1)], [13]⟩ 8
    h1 h2 h3 (by omega) (by simpa [chainNested] using h5)
  exact ⟨⟨h1, h2, h3, by omega, h5⟩, by simpa [chainNested] using this⟩

/-- C2 (counterexample).  For `if err != nil {} else { x }`, whose
alternative is a plain block, the claim says the normalization is skipped
entirely, with no brace-insertion edits recorded; but the brace insertions
of src/main.go:291-292 run for every non-nil alternative, so the walk
records `"{"` at offset 21 and `"}"` at offset 27 besides the injection
edit. -/
theorem plain_block_else_edits_recorded :
    goWalk blockElseCfg blockElseTree =
      .ok ⟨[(0, injTemplate blockElseCfg 1), (21, ['\x7b']), (27, ['\x7d'])], [0, 24]⟩ ∧
    (21, ['\x7b']) ∈
      [(0, injTemplate blockElseCfg 1), (21, ['\x7b']), (27, ['\x7d'])] := by
  refine ⟨?_, by simp⟩
  have hf : findText blockElseCfg.content 16 elseKeyword = 17 := by decide
  simp [blockElseCfg] at hf
  simp [goWalk, goWalkOpt, goWalkList, goWalkElse, guardMatch, blockElseCfg,
    blockElseTree, Except.bind, Except.map, Res.app, GoStmt.endO, hf]

/-- C2 (amended).  For a conditional whose alternative is a plain block, the
brace-insertion edits are still recorded — `"{"` at `elseOffset + 4` and
`"}"` at the block's `End()` offset — and the tree rewrite only repositions
the block's start to just after the inserted opening brace, keeping its
statements; the visitor then recurses into the block's statements. -/
theorem plain_block_else_still_braced (cfg : Config) (pos line : Nat)
    (ini : Option GoStmt) (cond : GoExpr) (body : List GoStmt) (bodyEnd : Nat)
    (lb2 : Nat) (cs2 : List GoStmt) (en2 : Nat) (endOff : Nat)
    (ri rb re : Res) (k : Int)
    (hri : goWalkOpt cfg ini = .ok ri)
    (hrb : goWalkList cfg body = .ok rb)
    (hk : findText cfg.content bodyEnd elseKeyword = k)
    (hk0 : 0 ≤ k)
    (hre : goWalkList cfg cs2 = .ok re) :
    goWalk cfg (.ifStmt pos line ini cond body bodyEnd
        (some (.block lb2 cs2 en2)) endOff) =
      .ok ⟨ri.edits
            ++ (if ini.isNone && guardMatch cond then [(pos, injTemplate cfg line)] else [])
            ++ rb.edits
            ++ [(k.toNat + 4, ['\x7b']), (en2, ['\x7d'])]
            ++ re.edits,
           pos :: (ri.trace ++ rb.trace ++ re.trace)⟩ ∧
    normalizedElse (k.toNat + 4) (.block lb2 cs2 en2) =
      .ok (.block (k.toNat + 4) cs2 en2) := by
  refine ⟨?_, by simp [normalizedElse]⟩
  rw [goWalk_ifStmt, hri]
  simp only [Except.bind]
  rw [hrb]
  dsimp only
  rw [hk, if_neg (by omega : ¬k < 0), goWalkElse_block, hre]
  simp [Except.map, GoStmt.endO]

/-- Witness for `plain_block_else_still_braced` on
`if err != nil {} else { x }`. -/
theorem plain_block_else_still_braced_witness :
    (goWalkOpt blockElseCfg none = .ok ⟨[], []⟩ ∧
     goWalkList blockElseCfg [] = .ok ⟨[], []⟩ ∧
     findText blockElseCfg.content 16 elseKeyword = 17 ∧
     (0 : Int) ≤ 17 ∧
     goWalkList blockElseCfg [.simple 24 25 []] = .ok ⟨[], [24]⟩) ∧
    goWalk blockElseCfg (.ifStmt 0 1 none
        (.binary .neq (.ident "err") (.ident "nil")) [] 16
        (some (.block 22 [.simple 24 25 []] 27)) 27) =
      .ok ⟨(Res.mk [] []).edits
            ++ (if (none : Option GoStmt).isNone &&
                  guardMatch (.binary .neq (.ident "err") (.ident "nil")) then
                  [(0, injTemplate blockElseCfg 1)] else [])
            ++ (Res.mk [] []).edits
            ++ [((17 : Int).toNat + 4, ['\x7b']), (27, ['\x7d'])]
            ++ (Res.mk [] [24]).edits,
           0 :: ((Res.mk [] []).trace ++ (Res.mk [] []).trace
             ++ (Res.mk [] [24]).trace)⟩ ∧
    normalizedElse ((17 : Int).toNat + 4) (.block 22 [.simple 24 25 []] 27) =
      .ok (.block ((17 : Int).toNat + 4) [.simple 24 25 []] 27) := by
  have h1 : goWalkOpt blockElseCfg none = .ok ⟨[], []⟩ := by simp [goWalkOpt]
  have h2 : goWalkList blockElseCfg [] = .ok ⟨[], []⟩ := by simp [goWalkList]
  have h3 : findText blockElseCfg.content 16 elseKeyword = 17 := by decide
  have h5 : goWalkList blockElseCfg [.simple 24 25 []] = .ok ⟨[], [24]⟩ := by
    simp [goWalk, goWalkOpt, goWalkList, Except.bind, Except.map, Res.app]
  exact ⟨⟨h1, h2, h3, by omega, h5⟩,
    plain_block_else_still_braced blockElseCfg 0 1 none
      (.binary .neq (.ident "err") (.ident "nil")) [] 16 22 [.simple 24 25 []] 27 27
      ⟨[], []⟩ ⟨[], []⟩ ⟨[], [24]⟩ 17 h1 h2 h3 (by omega) h5⟩

set_option maxRecDepth 8192 in
/-- C1.  Probability bound determinism (code bug).  With error-likelihood
100 the derived denominator `int(100 / percent)` is 1, and the injected
runtime condition `rand.Int() % 1 == 0` is unconditionally true (Go's `%`
and the `%` here agree for divisor 1, and for every outcome, not just the
non-negative ones `rand.Int` produces).  The spec's example `5 ⇒ 20` holds
too.  But the tool performs no validation of the flag at all: at
`-error-percent=200` the denominator is 0 (at `-5` it is −20), the walk
still succeeds, and the emitted template literally contains the
modulo-by-zero text `% 0 == 0` — the configuration is accepted, not
rejected as the claim requires. -/
theorem probability_denominator_unchecked :
    (denom 100 = 1 ∧ ∀ r : ℤ, r % denom 100 = 0) ∧
    denom 5 = 20 ∧
    (denom 200 = 0 ∧ denom (-5) = -20) ∧
    goWalk cfg200 guardTree = .ok ⟨[(0, injTemplate cfg200 1)], [0]⟩ ∧
    (∃ pre post : List Char,
      injTemplate cfg200 1 = pre ++ ("% 0 == 0").toList ++ post) := by
  have h100 : denom 100 = 1 := by
    have h : (100 : ℚ) / 100 = 1 := by norm_num
    simp [denom, ratTrunc, h]
  have h5 : denom 5 = 20 := by
    have h : (100 : ℚ) / 5 = 20 := by norm_num
    simp [denom, ratTrunc, h]
  have h200 : denom 200 = 0 := by
    have h : (100 : ℚ) / 200 = 1 / 2 := by norm_num
    rw [denom, ratTrunc, h]
    norm_num
    decide
  have hm5 : denom (-5) = -20 := by
    have h : (100 : ℚ) / (-5) = -20 := by norm_num
    rw [denom, ratTrunc, h]
    norm_num
  refine ⟨⟨h100, ?_⟩, h5, ⟨h200, hm5⟩, ?_, ?_⟩
  · intro r
    rw [h100]
    exact Int.emod_one r
  · simp [goWalk, goWalkOpt, goWalkList, guardMatch, cfg200, guardTree,
      Except.bind, Except.map]
  · refine ⟨("if _errorsmith_rand_.Int() ").toList,
      (" \x7b\n    _errorsmith_fmt_.Printf(\"injected error at g.go:1\\n\")\n    err = _errorsmith_fmt_.Errorf(\"injected error at g.go:1\")\n\x7d\n").toList, ?_⟩
    have hp : cfg200.errorPercent = 200 := by simp [cfg200]
    simp only [injTemplate, hp, h200, cfg200]
    decide

/-! ## Emitter and entry point -/

/-- Observable events at the tail of `injectErrors`, in order. -/
inductive RunEvent where
  | write (bytes : List Char)
  | fatalExit (msg : String)
deriving DecidableEq, Repr

/-- Model of src/main.go:365-375, parameterized by the external formatter's
result on the rewritten bytes (`format.Source` is an external
collaborator): on success the canonical bytes are written and the run ends
cleanly; on failure the raw unformatted bytes are assigned back (line 368),
the error is wrapped via `errors.Wrap` (line 369), the write happens (line
371), and only then `log.Fatalf` exits non-zero (lines 373-375) with the
wrapped message.  The parse-failure diagnostic of src/main.go:331-332, by
contrast, is `errorsmith: <file>: <err>` and aborts before any output
exists. -/
def emitTail (fmtResult : Except String (List Char)) (newContent : List Char) :
    List RunEvent :=
  match fmtResult with
  | .ok formatted => [.write formatted]
  | .error e =>
    [.write newContent,
     .fatalExit ("errorsmith: Code formatting failed with Go parse error: " ++ e)]

/-- C7.  When the external formatter fails on the rewritten text, the raw
unformatted bytes are still written, and only after the write does the run
exit non-zero, with a wrapped diagnostic identifying the condition as a
formatting failure (distinct in shape from the parse-failure diagnostic);
on formatter success the canonicalized bytes are written instead. -/
theorem formatter_failure_write_then_exit
    (fmtResult : Except String (List Char)) (newContent : List Char) :
    (∀ f, fmtResult = .ok f → emitTail fmtResult newContent = [.write f]) ∧
    (∀ e, fmtResult = .error e →
      emitTail fmtResult newContent =
        [.write newContent,
         .fatalExit ("errorsmith: Code formatting failed with Go parse error: " ++ e)]) := by
  constructor
  · rintro f rfl; rfl
  · rintro e rfl; rfl

/-- Witness for `formatter_failure_write_then_exit` at a failing and a
succeeding formatter result. -/
theorem formatter_failure_write_then_exit_witness :
    ((Except.error "x" : Except String (List Char)) = .error "x" ∧
      emitTail (.error "x") ['a'] =
        [.write ['a'],
         .fatalExit ("errorsmith: Code formatting failed with Go parse error: " ++ "x")]) ∧
    ((Except.ok ['b'] : Except String (List Char)) = .ok ['b'] ∧
      emitTail (.ok ['b']) ['a'] = [.write ['b']]) :=
  ⟨⟨rfl, (formatter_failure_write_then_exit (.error "x") ['a']).2 "x" rfl⟩,
   ⟨rfl, (formatter_failure_write_then_exit (.ok ['b']) ['a']).1 ['b'] rfl⟩⟩

/-- Outcome of `main`'s argument handling. -/
inductive MainAct where
  | usageExit (code : Nat)
  | runTransform (path : String)
deriving DecidableEq, Repr

/-- Model of `main` (src/main.go:182-192) together with `usage`
(src/main.go:164-169): the usage text is printed and the process exits with
status 2 only when `flag.NFlag() == 0 && flag.NArg() == 0`; in every other
case `injectErrors(flag.Arg(0))` runs, where `flag.Arg(0)` is `""` when no
positional argument exists. -/
def mainModel (nflag : Nat) (args : List String) : MainAct :=
  if nflag = 0 ∧ args.length = 0 then .usageExit 2
  else .runTransform (args.headD "")

/-- C8 (counterexample).  An invocation with one flag and no positional
argument (for example `errorsmith -o out.go`) does not print usage, contrary
to the claim: it attempts the transform on the empty path. -/
theorem flags_without_arg_skip_usage :
    mainModel 1 [] = .runTransform "" ∧ mainModel 1 [] ≠ .usageExit 2 := by
  decide

/-- C8 (amended).  The usage text and exit status 2 happen iff no flags and
no positional arguments were supplied; whenever flags are present but the
positional argument is absent, the transform is attempted on the empty path
(which then aborts on the file-read error) instead of printing usage; and
the usage exit status 2 is non-zero. -/
theorem usage_iff_no_flags_no_args (nflag : Nat) (args : List String) :
    (mainModel nflag args = .usageExit 2 ↔ nflag = 0 ∧ args.length = 0) ∧
    (¬(nflag = 0 ∧ args.length = 0) →
      mainModel nflag args = .runTransform (args.headD "")) ∧
    (2 : Nat) ≠ 0 := by
  unfold mainModel
  by_cases h : nflag = 0 ∧ args.length = 0 <;> simp [h]

/-- Witness for `usage_iff_no_flags_no_args` at one flag and no
arguments. -/
theorem usage_iff_no_flags_no_args_witness :
    ¬((1 : Nat) = 0 ∧ ([] : List String).length = 0) ∧
    ((mainModel 1 [] = .usageExit 2 ↔ (1 : Nat) = 0 ∧ ([] : List String).length = 0) ∧
      (¬((1 : Nat) = 0 ∧ ([] : List String).length = 0) →
        mainModel 1 [] = .runTransform (([] : List String).headD "")) ∧
      (2 : Nat) ≠ 0) :=
  ⟨by decide, usage_iff_no_flags_no_args 1 []⟩

/-! ## Edit buffer and output pipeline -/

/-- Modelled from the spec: the Positional Edit Buffer (`NewBuffer`,
`Buffer.Insert`, `Buffer.Bytes`), whose source file (edit.go) is not under
src/.  Spec §4.2: the buffer owns the immutable original byte sequence and
an ordered collection of recorded insertions. -/
structure Buffer where
  content : List Char
  edits : List (Nat × List Char)

/-- Modelled from the spec: buffer creation from the raw bytes. -/
def NewBuffer (content : List Char) : Buffer := ⟨content, []⟩

/-- Modelled from the spec: `insert(position, text)` records an edit; edits
are insertion-only and kept in recording order. -/
def Buffer.Insert (b : Buffer) (pos : Nat) (text : List Char) : Buffer :=
  { b with edits := b.edits ++ [(pos, text)] }

/-- Insertions targeting offset `i`, in recorded order, concatenated. -/
def editsAt (edits : List (Nat × List Char)) (i : Nat) : List Char :=
  ((edits.filter (fun e => e.1 == i)).map Prod.snd).flatten

/-- Modelled from the spec: materialization walks the original bytes and, at
each offset, emits every recorded insertion targeting that offset (in
recorded order) before the original byte — i.e. edits applied ordered by
position, stable on recording order for ties; insertions at the end-of-file
offset are emitted last. -/
def matAux (edits : List (Nat × List Char)) : List Char → Nat → List Char
  | [], i => editsAt edits i
  | c :: rest, i => editsAt edits i ++ c :: matAux edits rest (i + 1)

/-- Modelled from the spec: `Buffer.Bytes` materializes the edited file. -/
def Buffer.Bytes (b : Buffer) : List Char := matAux b.edits b.content 0

/-- Materialization never drops original bytes: output length is at least
the input length. -/
theorem matAux_length_ge (edits : List (Nat × List Char)) :
    ∀ (c : List Char) (i : Nat), c.length ≤ (matAux edits c i).length := by
  intro c
  induction c with
  | nil => intro i; simp [matAux]
  | cons x rest ih =>
    intro i
    have := ih (i + 1)
    simp only [matAux, List.length_append, List.length_cons]
    omega

/-- The two renamed import declarations inserted right after the package
clause's name (src/main.go:342-349). -/
def importDecls : List Char :=
  ("\nimport _errorsmith_rand_ \"math/rand\"\nimport _errorsmith_fmt_ \"fmt\"\n").toList

/-- The reference expression keeping the rand import used
(src/main.go:353). -/
def randRef : List Char := ("\nvar _ = _errorsmith_rand_.Int").toList

/-- The reference expression keeping the fmt import used
(src/main.go:354). -/
def fmtRef : List Char := ("\nvar _ = _errorsmith_fmt_.Printf").toList

/-- Model of `injectErrors` from the successful parse to the bytes handed to
the formatter (src/main.go:335-354): create the buffer over the original
bytes, insert the import declarations at the offset of the package name's
`End()`, walk the tree (recording the visitor's insertions in order),
materialize, and append the two reference expressions.  Returns the
recorded edit list alongside the bytes. -/
def injectErrorsNewContent (cfg : Config) (pkgNameEnd : Nat) (tree : GoStmt) :
    Except String (List (Nat × List Char) × List Char) :=
  (goWalk cfg tree).map fun r =>
    let b0 := (NewBuffer cfg.content).Insert pkgNameEnd importDecls
    let b1 : Buffer := ⟨b0.content, b0.edits ++ r.edits⟩
    (b1.edits, b1.Bytes ++ randRef ++ fmtRef)

/-- C10.  Every run that reaches output modifies the source even when no
guard site matched: the first recorded edit is always the insertion of the
two renamed import declarations at the package-clause name's end offset,
recorded before the traversal's edits; the two `var _ =` reference
expressions are always appended after materialization; and the resulting
bytes are strictly longer than — hence never byte-identical to — the
input. -/
theorem output_always_modified (cfg : Config) (pkgNameEnd : Nat) (tree : GoStmt)
    (r : Res) (h : goWalk cfg tree = .ok r) :
    injectErrorsNewContent cfg pkgNameEnd tree =
      .ok ((pkgNameEnd, importDecls) :: r.edits,
        matAux ((pkgNameEnd, importDecls) :: r.edits) cfg.content 0
          ++ randRef ++ fmtRef) ∧
    (∀ edits out,
      injectErrorsNewContent cfg pkgNameEnd tree = .ok (edits, out) →
      cfg.content.length < out.length ∧ out ≠ cfg.content) ∧
    (∃ a b c : List Char,
      importDecls = a ++ ("import _errorsmith_rand_ ").toList
        ++ b ++ ("import _errorsmith_fmt_ ").toList ++ c) := by
  have h1 : injectErrorsNewContent cfg pkgNameEnd tree =
      .ok ((pkgNameEnd, importDecls) :: r.edits,
        matAux ((pkgNameEnd, importDecls) :: r.edits) cfg.content 0
          ++ randRef ++ fmtRef) := by
    simp [injectErrorsNewContent, h, Except.map, NewBuffer, Buffer.Insert,
      Buffer.Bytes]
  refine ⟨h1, ?_, ⟨("\n").toList, ("\"math/rand\"\n").toList, ("\"fmt\"\n").toList,
    by decide⟩⟩
  intro edits out he
  rw [h1] at he
  simp only [Except.ok.injEq, Prod.mk.injEq] at he
  have hout : out = matAux ((pkgNameEnd, importDecls) :: r.edits) cfg.content 0
      ++ randRef ++ fmtRef := he.2.symm
  subst hout
  have hge := matAux_length_ge ((pkgNameEnd, importDecls) :: r.edits) cfg.content 0
  constructor
  · simp only [List.length_append]
    have : 0 < randRef.length := by decide
    omega
  · intro heq
    have := congrArg List.length heq
    simp only [List.length_append] at this
    have : 0 < randRef.length := by decide
    omega

/-- Witness for `output_always_modified` on a tree with no guard sites at
all: the output still differs from the input. -/
theorem output_always_modified_witness :
    goWalk guardCfg (.simple 5 6 []) = .ok ⟨[], [5]⟩ ∧
    (injectErrorsNewContent guardCfg 8 (.simple 5 6 []) =
      .ok ((8, importDecls) :: (Res.mk [] [5]).edits,
        matAux ((8, importDecls) :: (Res.mk [] [5]).edits) guardCfg.content 0
          ++ randRef ++ fmtRef) ∧
    (∀ edits out,
      injectErrorsNewContent guardCfg 8 (.simple 5 6 []) = .ok (edits, out) →
      guardCfg.content.length < out.length ∧ out ≠ guardCfg.content) ∧
    (∃ a b c : List Char,
      importDecls = a ++ ("import _errorsmith_rand_ ").toList
        ++ b ++ ("import _errorsmith_fmt_ ").toList ++ c)) := by
  have hw : goWalk guardCfg (.simple 5 6 []) = .ok ⟨[], [5]⟩ := by
    simp [goWalk, goWalkOpt, goWalkList, Except.bind, Except.map]
  exact ⟨hw, output_always_modified guardCfg 8 (.simple 5 6 []) _ hw⟩

end Errorsmith
